import Mathlib

/-!
Shallow embedding of `boltzmann_matchN_v1_0.py`, a rejection-sampling
Monte Carlo simulation of the emergence of a Boltzmann-like distribution.
Each trial draws `N` random level indices, computes the missing energy
needed to reach `E_total`, accepts the configuration exactly when that
missing energy is itself an admissible level, and accumulates a histogram
of the `N + 1` assigned energies of every accepted configuration.
Finalization normalizes the histogram and derives moment statistics.

The source's randomness (`np.random.randint`) is embedded by passing the
drawn index selections in as data; numpy's floating arithmetic at
finalization is embedded over the rationals, with non-finite values
(NaN / infinity, which numpy produces *without raising* on division by
zero) modeled as `none`.
-/

/-- Configuration parameters: the module-level constants `Trials`, `N`,
`E_total`, `E_min`, `E_max` of the source. The two counts are naturals,
so the spec's "count < 1" means the value zero. -/
structure Params where
  Trials : Nat
  N : Nat
  E_total : Int
  E_min : Int
  E_max : Int
deriving DecidableEq

/-- The number of energy levels, i.e. `E_levels.size` for
`E_levels = np.arange(E_min, E_max+1)`: zero when `E_min > E_max`. -/
def numLevels (p : Params) : Nat := (p.E_max + 1 - p.E_min).toNat

/-- `E_levels = np.arange(E_min, E_max+1)`: the consecutive integers from
`E_min` to `E_max` inclusive. -/
def E_levels (p : Params) : List Int :=
  (List.range (numLevels p)).map (fun (i : Nat) => p.E_min + (i : Int))

/-- The energy value stored at index `i` of `E_levels` (an out-of-range
index reads the default 0; real executions only ever index in range). -/
def energyOf (p : Params) (i : Nat) : Int := (E_levels p).getD i 0

/-- `sum(E_levels[E_select])`: total energy of the freely drawn part of a
candidate, where `sel` is the list of drawn level indices. -/
def candSum (p : Params) (sel : List Nat) : Int := (sel.map (energyOf p)).sum

/-- `E_missing = E_total - sum(E_levels[E_select])`. -/
def E_missing (p : Params) (sel : List Nat) : Int := p.E_total - candSum p sel

/-- `E_select_fill = np.argwhere(E_missing == E_levels)`: the indices of
`E_levels` holding a value equal to `E_missing`. -/
def E_select_fill (p : Params) (sel : List Nat) : List Nat :=
  (List.range (numLevels p)).filter
    (fun i => decide ((E_levels p).getD i 0 = E_missing p sel))

/-- The loop state of the source: `count` of successful trials and the
occurrence array `stat` (a numpy array holding exact small counts,
embedded as naturals). -/
structure SimState where
  count : Nat
  stat : List Nat
deriving DecidableEq

/-- `stat[i] = stat[i] + 1`. -/
def bump (stat : List Nat) (i : Nat) : List Nat := stat.set i (stat.getD i 0 + 1)

/-- `for E_this in E_select: stat[E_this] = stat[E_this] + 1`. -/
def recordConfig (stat : List Nat) (sel : List Nat) : List Nat :=
  sel.foldl bump stat

/-- One iteration of the trial loop on the drawn selection `sel`:
if `E_select_fill.size == 1` the configuration is completed with the
matched index and recorded, otherwise the state is unchanged. -/
def trialStep (p : Params) (s : SimState) (sel : List Nat) : SimState :=
  if (E_select_fill p sel).length = 1 then
    { count := s.count + 1
      stat := recordConfig s.stat (sel ++ [(E_select_fill p sel).headD 0]) }
  else s

/-- `count = 0; stat = np.zeros(E_levels.size)`. -/
def initState (p : Params) : SimState :=
  { count := 0, stat := List.replicate (numLevels p) 0 }

/-- The trial loop, driven by the list of random index selections (one
list of `N` indices per trial). -/
def runTrials (p : Params) (draws : List (List Nat)) : SimState :=
  draws.foldl (trialStep p) (initState p)

/-- A selection that `np.random.randint(E_levels.size, size=(N,))` can
actually produce: `N` indices, each within the level index range. -/
def ValidDraw (p : Params) (sel : List Nat) : Prop :=
  sel.length = p.N ∧ ∀ i ∈ sel, i < numLevels p

/-- The exceptions the interpreter can hit while running the script
(which defines no error type of its own): `np.random.randint(0, ...)`
raises `ValueError` inside the trial loop when `E_levels` is empty
(inverted bounds); and the `E_tot_avg` line divides the plain integer 0
by the integer `count` when the summed array is empty, which raises
Python's `ZeroDivisionError` when `count = 0`. -/
inductive RunError where
  | emptyLevelRange
  | zeroDivisionError
deriving DecidableEq

/-- The trial loop including its only possible runtime failure: with at
least one trial and an empty level set, the first call of
`np.random.randint` raises; otherwise the loop runs to completion. The
source performs no parameter validation before the loop. -/
def runTrialsE (p : Params) (draws : List (List Nat)) :
    Except RunError SimState :=
  if 0 < p.Trials ∧ numLevels p = 0 then .error .emptyLevelRange
  else .ok (runTrials p draws)

/-- numpy floating division: dividing by zero does not raise an exception;
it emits a RuntimeWarning and yields a non-finite value (NaN for 0/0,
signed infinity otherwise). Finite values are embedded exactly as
rationals and every non-finite value as `none`. -/
def npDiv (a b : ℚ) : Option ℚ := if b = 0 then none else some (a / b)

/-- numpy addition on possibly-non-finite values; a non-finite operand
makes the result non-finite (the only non-finite operands arising in this
program are NaN, which propagates through addition). -/
def npAdd : Option ℚ → Option ℚ → Option ℚ
  | some a, some b => some (a + b)
  | _, _ => none

/-- numpy multiplication; NaN propagates. -/
def npMul : Option ℚ → Option ℚ → Option ℚ
  | some a, some b => some (a * b)
  | _, _ => none

/-- numpy subtraction; NaN propagates. -/
def npSub : Option ℚ → Option ℚ → Option ℚ
  | some a, some b => some (a - b)
  | _, _ => none

/-- Python's builtin `sum` over an array of possibly-non-finite values
(left fold from 0). -/
def npSum (l : List (Option ℚ)) : Option ℚ := l.foldl npAdd (some 0)

/-- `np.sqrt`: NaN for a non-finite or negative argument. The exact square
root of a rational is irrational in general, so the value is real; this
definition is only as computable as the square root itself. -/
noncomputable def npSqrt : Option ℚ → Option ℝ
  | none => none
  | some q => if q < 0 then none else some (Real.sqrt (q : ℝ))

/-- `pop = stat/sum(stat)`: elementwise normalization of the histogram
(NaN entries when the histogram is empty of mass). -/
def pop (s : SimState) : List (Option ℚ) :=
  s.stat.map (fun (c : Nat) => npDiv (c : ℚ) (s.stat.sum : ℚ))

/-- `E_tot_avg = sum(np.multiply(stat, E_levels))/count` on its
floating-point (non-raising) path: the summed product array is non-empty,
so the builtin `sum` is an `np.float64` and dividing by a zero count
yields NaN. The raising path is `E_tot_avgE`. -/
def E_tot_avg (p : Params) (s : SimState) : Option ℚ :=
  npDiv ((List.zipWith (fun (c : Nat) (e : Int) => (c : ℚ) * (e : ℚ))
    s.stat (E_levels p)).sum) (s.count : ℚ)

/-- The `E_tot_avg` line with full Python semantics: the builtin `sum` of
an *empty* array is the plain integer 0 (its start value), so the
division is integer division, which raises `ZeroDivisionError` when
`count = 0`; a non-empty product array sums to an `np.float64`, whose
division never raises (NaN on a zero count). -/
def E_tot_avgE (p : Params) (s : SimState) : Except RunError (Option ℚ) :=
  if List.zipWith (fun (c : Nat) (e : Int) => (c : ℚ) * (e : ℚ))
      s.stat (E_levels p) = [] ∧ s.count = 0
  then .error .zeroDivisionError
  else .ok (E_tot_avg p s)

/-- The whole script run, lines 45-64: the trial loop followed by
finalization. The only statements that can raise are the loop's
`np.random.randint` call (`runTrialsE`) and the `E_tot_avg` division
(`E_tot_avgE`); `pop` and the remaining moment lines are total, yielding
NaN (`none`) entries rather than errors. -/
def runScript (p : Params) (draws : List (List Nat)) :
    Except RunError (SimState × List (Option ℚ) × Option ℚ) :=
  match runTrialsE p draws with
  | .error e => .error e
  | .ok s =>
    match E_tot_avgE p s with
    | .error e => .error e
    | .ok avg => .ok (s, pop s, avg)

/-- `E_mol_avg = sum(np.multiply(pop, E_levels))`. -/
def E_mol_avg (p : Params) (s : SimState) : Option ℚ :=
  npSum (List.zipWith npMul (pop s)
    ((E_levels p).map (fun (e : Int) => some (e : ℚ))))

/-- `E2_levels = np.power(E_levels, 2)`. -/
def E2_levels (p : Params) : List Int := (E_levels p).map (fun e => e ^ 2)

/-- `E2_mol_avg = sum(np.multiply(pop, E2_levels))`. -/
def E2_mol_avg (p : Params) (s : SimState) : Option ℚ :=
  npSum (List.zipWith npMul (pop s)
    ((E2_levels p).map (fun (e : Int) => some (e : ℚ))))

/-- `E_mol_std = np.sqrt(E2_mol_avg - E_mol_avg**2)`. -/
noncomputable def E_mol_std (p : Params) (s : SimState) : Option ℝ :=
  npSqrt (npSub (E2_mol_avg p s) (npMul (E_mol_avg p s) (E_mol_avg p s)))

/-- Spec formula, stated from the spec's words for comparison with the
code's computation: `distribution[i] = histogram[i] / sum(histogram)`. -/
def specDistribution (hist : List Nat) (i : Nat) : ℚ :=
  (hist.getD i 0 : ℚ) / (hist.sum : ℚ)

/-- Spec formula: `mean = Σ distribution[i] * level[i]`, where
`level[i] = E_min + i`. -/
def specMean (p : Params) (hist : List Nat) : ℚ :=
  ((List.range (numLevels p)).map
    (fun i => specDistribution hist i * ((p.E_min + (i : Int)) : ℚ))).sum

/-- Spec formula: the second moment `Σ distribution[i] * level[i]^2`,
whose difference with `mean^2` is the radicand of the spec's stddev. -/
def specSecondMoment (p : Params) (hist : List Nat) : ℚ :=
  ((List.range (numLevels p)).map
    (fun i => specDistribution hist i * ((p.E_min + (i : Int)) : ℚ) ^ 2)).sum

/-- Modelled from the spec: the seed-derived pseudorandom stream. The
source draws from numpy's implicit global generator, whose seed-to-stream
map is library code outside this repository; the spec requires only a
deterministic stream derived from the base seed, modeled here as a
64-bit linear congruential generator. -/
def lcgStep (x : Nat) : Nat :=
  (6364136223846793005 * x + 1442695040888963407) % 2 ^ 64

/-- Modelled from the spec: the `k`-th raw value of the seed-derived
stream. -/
def lcgIter (seed : Nat) : Nat → Nat
  | 0 => lcgStep (seed % 2 ^ 64)
  | k + 1 => lcgStep (lcgIter seed k)

/-- Modelled from the spec: the per-trial index selections derived
deterministically from the base seed (trial `k` consumes raw values
`k*N .. k*N + N - 1`, reduced into the level index range). -/
def drawsFor (seed : Nat) (p : Params) : List (List Nat) :=
  (List.range p.Trials).map (fun k =>
    (List.range p.N).map (fun j => lcgIter seed (k * p.N + j) % numLevels p))

/-- A whole run of the trial loop from a base seed. -/
def fullRun (seed : Nat) (p : Params) : SimState :=
  runTrials p (drawsFor seed p)

theorem length_E_levels (p : Params) : (E_levels p).length = numLevels p := by
  simp [E_levels]

theorem getD_E_levels (p : Params) {i : Nat} (h : i < numLevels p) :
    (E_levels p).getD i 0 = p.E_min + i := by
  rw [E_levels, List.getD_eq_getElem?_getD, List.getElem?_map,
    List.getElem?_range h]
  rfl

theorem mem_E_levels (p : Params) (m : Int) :
    m ∈ E_levels p ↔ p.E_min ≤ m ∧ m ≤ p.E_max := by
  simp only [E_levels, List.mem_map, List.mem_range]
  constructor
  · rintro ⟨i, hi, rfl⟩
    unfold numLevels at hi
    omega
  · intro h
    refine ⟨(m - p.E_min).toNat, ?_, ?_⟩
    · unfold numLevels
      omega
    · omega

theorem filter_range_level_eq (n : Nat) (c m : Int) :
    (List.range n).filter (fun (i : Nat) => decide (c + (i : Int) = m)) =
      if c ≤ m ∧ m < c + (n : Int) then [(m - c).toNat] else [] := by
  induction n with
  | zero =>
    rw [List.range_zero, List.filter_nil, if_neg]
    omega
  | succ n ih =>
    rw [List.range_succ, List.filter_append, ih]
    by_cases hm : c + (n : Int) = m
    · have h1 : ¬(c ≤ m ∧ m < c + (n : Int)) := by omega
      have h2 : c ≤ m ∧ m < c + ((n + 1 : Nat) : Int) := by push_cast; omega
      have hn : (m - c).toNat = n := by omega
      rw [if_neg h1, if_pos h2]
      simp only [List.filter_cons, List.filter_nil, decide_eq_true_eq,
        if_pos hm, List.nil_append, hn]
    · simp only [List.filter_cons, List.filter_nil, decide_eq_true_eq,
        if_neg hm, List.append_nil]
      by_cases hc : c ≤ m ∧ m < c + (n : Int)
      · have h2 : c ≤ m ∧ m < c + ((n + 1 : Nat) : Int) := by push_cast; omega
        rw [if_pos hc, if_pos h2]
      · have h2 : ¬(c ≤ m ∧ m < c + ((n + 1 : Nat) : Int)) := by
          push_cast; omega
        rw [if_neg hc, if_neg h2]

theorem E_select_fill_eq (p : Params) (sel : List Nat) :
    E_select_fill p sel =
      if p.E_min ≤ E_missing p sel ∧ E_missing p sel ≤ p.E_max
      then [(E_missing p sel - p.E_min).toNat] else [] := by
  have hcong : ∀ i ∈ List.range (numLevels p),
      decide ((E_levels p).getD i 0 = E_missing p sel) =
      decide (p.E_min + (i : Int) = E_missing p sel) := by
    intro i hi
    rw [getD_E_levels p (List.mem_range.mp hi)]
  rw [E_select_fill, List.filter_congr hcong, filter_range_level_eq]
  have hiff : (p.E_min ≤ E_missing p sel ∧
      E_missing p sel < p.E_min + (numLevels p : Int)) ↔
      (p.E_min ≤ E_missing p sel ∧ E_missing p sel ≤ p.E_max) := by
    unfold numLevels
    omega
  rw [if_congr hiff rfl rfl]

theorem accept_iff (p : Params) (sel : List Nat) :
    (E_select_fill p sel).length = 1 ↔
      p.E_min ≤ E_missing p sel ∧ E_missing p sel ≤ p.E_max := by
  rw [E_select_fill_eq]
  split
  · simp_all
  · simp_all

theorem fill_head_of_accept (p : Params) (sel : List Nat)
    (h : (E_select_fill p sel).length = 1) :
    (E_select_fill p sel).headD 0 = (E_missing p sel - p.E_min).toNat ∧
    (E_select_fill p sel).headD 0 < numLevels p ∧
    energyOf p ((E_select_fill p sel).headD 0) = E_missing p sel := by
  have hb := (accept_iff p sel).mp h
  have hlt : (E_missing p sel - p.E_min).toNat < numLevels p := by
    unfold numLevels
    omega
  rw [E_select_fill_eq, if_pos hb]
  refine ⟨rfl, hlt, ?_⟩
  rw [List.headD_cons, energyOf, getD_E_levels p hlt]
  omega

theorem accepted_config_sum (p : Params) (sel : List Nat)
    (h : (E_select_fill p sel).length = 1) :
    ((sel ++ [(E_select_fill p sel).headD 0]).map (energyOf p)).sum =
      p.E_total := by
  rcases fill_head_of_accept p sel h with ⟨-, -, he⟩
  rw [List.map_append, List.sum_append, List.map_cons, List.map_nil,
    List.sum_cons, List.sum_nil, he]
  have hc : (sel.map (energyOf p)).sum = candSum p sel := rfl
  rw [hc, E_missing]
  ring

/-- Claim C1: for every accepted trial, the P+1 recorded energies of the
Completed Configuration (the P freely drawn level values plus the
deterministically computed closing value) number P+1 and sum exactly, as
integers, to the configured `energy_total`. -/
theorem claim_C1 (p : Params) (sel : List Nat) (hsel : sel.length = p.N)
    (hacc : (E_select_fill p sel).length = 1) :
    (sel ++ [(E_select_fill p sel).headD 0]).length = p.N + 1 ∧
    ((sel ++ [(E_select_fill p sel).headD 0]).map (energyOf p)).sum =
      p.E_total := by
  constructor
  · rw [List.length_append, hsel]
    rfl
  · exact accepted_config_sum p sel hacc

/-- Witness for C1 at `N = 1`, levels `0..2`, `E_total = 2`, draw `[1]`. -/
theorem claim_C1_witness :
    ([1] : List Nat).length = Params.N ⟨1, 1, 2, 0, 2⟩ ∧
    (E_select_fill ⟨1, 1, 2, 0, 2⟩ [1]).length = 1 ∧
    (([1] ++ [(E_select_fill ⟨1, 1, 2, 0, 2⟩ [1]).headD 0]).length =
        Params.N ⟨1, 1, 2, 0, 2⟩ + 1 ∧
      (([1] ++ [(E_select_fill ⟨1, 1, 2, 0, 2⟩ [1]).headD 0]).map
          (energyOf ⟨1, 1, 2, 0, 2⟩)).sum = Params.E_total ⟨1, 1, 2, 0, 2⟩) :=
  ⟨by decide, by decide, claim_C1 ⟨1, 1, 2, 0, 2⟩ [1] (by decide) (by decide)⟩

/-- Claim C2: a candidate is accepted iff the missing energy
`E_total - Σ` candidate energies lies in the Level Space (equivalently
`E_min ≤ missing ≤ E_max`); at most one level matches; on acceptance the
closing particle's energy is exactly the matched value; otherwise the
whole candidate is rejected and the state is left unchanged. -/
theorem claim_C2 (p : Params) (sel : List Nat) :
    ((E_select_fill p sel).length = 1 ↔ E_missing p sel ∈ E_levels p) ∧
    (E_missing p sel ∈ E_levels p ↔
      p.E_min ≤ E_missing p sel ∧ E_missing p sel ≤ p.E_max) ∧
    (E_select_fill p sel).length ≤ 1 ∧
    ((E_select_fill p sel).length = 1 →
      energyOf p ((E_select_fill p sel).headD 0) = E_missing p sel) ∧
    ((E_select_fill p sel).length ≠ 1 →
      ∀ s : SimState, trialStep p s sel = s) := by
  refine ⟨?_, mem_E_levels p _, ?_, ?_, ?_⟩
  · rw [accept_iff, mem_E_levels]
  · rw [E_select_fill_eq]
    split
    · exact le_refl 1
    · exact Nat.zero_le 1
  · intro h
    exact (fill_head_of_accept p sel h).2.2
  · intro h s
    rw [trialStep, if_neg h]

/-- Witness for C2 at `N = 1`, levels `0..2`, `E_total = 2`, draw `[0]`. -/
theorem claim_C2_witness :
    ((E_select_fill ⟨1, 1, 2, 0, 2⟩ [0]).length = 1 ↔
      E_missing ⟨1, 1, 2, 0, 2⟩ [0] ∈ E_levels ⟨1, 1, 2, 0, 2⟩) ∧
    (E_missing ⟨1, 1, 2, 0, 2⟩ [0] ∈ E_levels ⟨1, 1, 2, 0, 2⟩ ↔
      (0 : Int) ≤ E_missing ⟨1, 1, 2, 0, 2⟩ [0] ∧
        E_missing ⟨1, 1, 2, 0, 2⟩ [0] ≤ 2) ∧
    (E_select_fill ⟨1, 1, 2, 0, 2⟩ [0]).length ≤ 1 ∧
    ((E_select_fill ⟨1, 1, 2, 0, 2⟩ [0]).length = 1 →
      energyOf ⟨1, 1, 2, 0, 2⟩ ((E_select_fill ⟨1, 1, 2, 0, 2⟩ [0]).headD 0) =
        E_missing ⟨1, 1, 2, 0, 2⟩ [0]) ∧
    ((E_select_fill ⟨1, 1, 2, 0, 2⟩ [0]).length ≠ 1 →
      ∀ s : SimState, trialStep ⟨1, 1, 2, 0, 2⟩ s [0] = s) :=
  claim_C2 ⟨1, 1, 2, 0, 2⟩ [0]

/-- Claim C10: on acceptance every histogram index touched while recording
is in bounds: the free indices are below the level count by hypothesis and
the closing index equals `E_missing - E_min`, which lies below the level
count precisely because acceptance requires `E_missing` to be a level. -/
theorem claim_C10 (p : Params) (sel : List Nat)
    (hsel : ∀ i ∈ sel, i < numLevels p)
    (hacc : (E_select_fill p sel).length = 1) :
    (∀ i ∈ sel ++ [(E_select_fill p sel).headD 0], i < numLevels p) ∧
    ((E_select_fill p sel).headD 0 : Int) = E_missing p sel - p.E_min ∧
    (∀ s : SimState, s.stat.length = numLevels p →
      ∀ i ∈ sel ++ [(E_select_fill p sel).headD 0], i < s.stat.length) := by
  rcases fill_head_of_accept p sel hacc with ⟨hval, hlt, -⟩
  have hb := (accept_iff p sel).mp hacc
  have hall : ∀ i ∈ sel ++ [(E_select_fill p sel).headD 0],
      i < numLevels p := by
    intro i hi
    rcases List.mem_append.mp hi with h | h
    · exact hsel i h
    · rcases List.mem_singleton.mp h with rfl
      exact hlt
  refine ⟨hall, ?_, ?_⟩
  · rw [hval]
    omega
  · intro s hs i hi
    rw [hs]
    exact hall i hi

/-- Witness for C10 at `N = 1`, levels `0..2`, `E_total = 2`, draw `[2]`. -/
theorem claim_C10_witness :
    (∀ i ∈ ([2] : List Nat), i < numLevels ⟨1, 1, 2, 0, 2⟩) ∧
    (E_select_fill ⟨1, 1, 2, 0, 2⟩ [2]).length = 1 ∧
    ((∀ i ∈ [2] ++ [(E_select_fill ⟨1, 1, 2, 0, 2⟩ [2]).headD 0],
        i < numLevels ⟨1, 1, 2, 0, 2⟩) ∧
      ((E_select_fill ⟨1, 1, 2, 0, 2⟩ [2]).headD 0 : Int) =
        E_missing ⟨1, 1, 2, 0, 2⟩ [2] - 0 ∧
      (∀ s : SimState, s.stat.length = numLevels ⟨1, 1, 2, 0, 2⟩ →
        ∀ i ∈ [2] ++ [(E_select_fill ⟨1, 1, 2, 0, 2⟩ [2]).headD 0],
          i < s.stat.length)) :=
  ⟨by decide, by decide, claim_C10 ⟨1, 1, 2, 0, 2⟩ [2] (by decide) (by decide)⟩

instance (p : Params) (sel : List Nat) : Decidable (ValidDraw p sel) := by
  unfold ValidDraw
  infer_instance

theorem length_bump (stat : List Nat) (i : Nat) :
    (bump stat i).length = stat.length := by
  rw [bump, List.length_set]

theorem sum_bump (stat : List Nat) (i : Nat) (h : i < stat.length) :
    (bump stat i).sum = stat.sum + 1 := by
  induction stat generalizing i with
  | nil => simp at h
  | cons a l ih =>
    cases i with
    | zero =>
      simp only [bump, List.set_cons_zero, List.getD_cons_zero, List.sum_cons]
      omega
    | succ i =>
      have h2 : i < l.length := by simpa using h
      have h3 := ih i h2
      rw [bump] at h3
      simp only [bump, List.set_cons_succ, List.getD_cons_succ, List.sum_cons,
        h3]
      omega

theorem length_recordConfig (sel : List Nat) (stat : List Nat) :
    (recordConfig stat sel).length = stat.length := by
  induction sel generalizing stat with
  | nil => rfl
  | cons i sel ih =>
    rw [recordConfig, List.foldl_cons]
    have h := ih (bump stat i)
    rw [recordConfig] at h
    rw [h, length_bump]

theorem sum_recordConfig (sel : List Nat) (stat : List Nat)
    (h : ∀ i ∈ sel, i < stat.length) :
    (recordConfig stat sel).sum = stat.sum + sel.length := by
  induction sel generalizing stat with
  | nil => simp [recordConfig]
  | cons i sel ih =>
    rw [recordConfig, List.foldl_cons]
    have hi : i < stat.length := h i (List.mem_cons_self i sel)
    have hrest : ∀ j ∈ sel, j < (bump stat i).length := by
      intro j hj
      rw [length_bump]
      exact h j (List.mem_cons_of_mem i hj)
    have h2 := ih (bump stat i) hrest
    rw [recordConfig] at h2
    rw [h2, sum_bump stat i hi, List.length_cons]
    omega

theorem trialStep_inv (p : Params) (s : SimState) (sel : List Nat)
    (hlen : s.stat.length = numLevels p)
    (hsum : s.stat.sum = s.count * (p.N + 1))
    (hv : ValidDraw p sel) :
    (trialStep p s sel).stat.length = numLevels p ∧
    (trialStep p s sel).stat.sum = (trialStep p s sel).count * (p.N + 1) := by
  rw [trialStep]
  split
  case isTrue hacc =>
    rcases hv with ⟨hn, hin⟩
    have hidx : ∀ i ∈ sel ++ [(E_select_fill p sel).headD 0],
        i < s.stat.length := by
      rw [hlen]
      intro i hi
      rcases List.mem_append.mp hi with h | h
      · exact hin i h
      · rcases List.mem_singleton.mp h with rfl
        exact (fill_head_of_accept p sel hacc).2.1
    dsimp only
    constructor
    · rw [length_recordConfig, hlen]
    · rw [sum_recordConfig _ _ hidx, List.length_append, hn, hsum]
      simp only [List.length_cons, List.length_nil]
      ring
  case isFalse => exact ⟨hlen, hsum⟩

theorem runTrials_inv (p : Params) (draws : List (List Nat))
    (hv : ∀ sel ∈ draws, ValidDraw p sel) :
    (runTrials p draws).stat.length = numLevels p ∧
    (runTrials p draws).stat.sum = (runTrials p draws).count * (p.N + 1) := by
  rw [runTrials]
  have main : ∀ (ds : List (List Nat)) (s : SimState),
      (∀ sel ∈ ds, ValidDraw p sel) →
      s.stat.length = numLevels p →
      s.stat.sum = s.count * (p.N + 1) →
      (ds.foldl (trialStep p) s).stat.length = numLevels p ∧
      (ds.foldl (trialStep p) s).stat.sum =
        (ds.foldl (trialStep p) s).count * (p.N + 1) := by
    intro ds
    induction ds with
    | nil => intro s _ h1 h2; exact ⟨h1, h2⟩
    | cons sel ds ih =>
      intro s hvd h1 h2
      rw [List.foldl_cons]
      rcases trialStep_inv p s sel h1 h2
        (hvd sel (List.mem_cons_self sel ds)) with ⟨g1, g2⟩
      exact ih (trialStep p s sel)
        (fun x hx => hvd x (List.mem_cons_of_mem sel hx)) g1 g2
  refine main draws (initState p) hv ?_ ?_
  · simp [initState]
  · simp [initState]

/-- Claim C3: after any number of trials, the histogram's total mass is
exactly `count * (N + 1)`: each accepted trial adds the `N + 1` energies
of its Completed Configuration and bumps the counter once, and each
rejected trial changes nothing. -/
theorem claim_C3 (p : Params) (draws : List (List Nat))
    (hv : ∀ sel ∈ draws, ValidDraw p sel) (t : Nat) :
    (runTrials p (draws.take t)).stat.sum =
      (runTrials p (draws.take t)).count * (p.N + 1) := by
  exact (runTrials_inv p (draws.take t)
    (fun sel hs => hv sel (List.take_subset t draws hs))).2

/-- Witness for C3 with two trials at `N = 1`, levels `0..2`,
`E_total = 2`, after the first trial. -/
theorem claim_C3_witness :
    (∀ sel ∈ [[0], [1]], ValidDraw ⟨2, 1, 2, 0, 2⟩ sel) ∧
    (runTrials ⟨2, 1, 2, 0, 2⟩ ([[0], [1]].take 1)).stat.sum =
      (runTrials ⟨2, 1, 2, 0, 2⟩ ([[0], [1]].take 1)).count *
        (Params.N ⟨2, 1, 2, 0, 2⟩ + 1) :=
  ⟨by decide, claim_C3 ⟨2, 1, 2, 0, 2⟩ [[0], [1]] (by decide) 1⟩

theorem list_sum_bounds (a b : Int) :
    ∀ l : List Int, (∀ x ∈ l, a ≤ x ∧ x ≤ b) →
      (l.length : Int) * a ≤ l.sum ∧ l.sum ≤ (l.length : Int) * b := by
  intro l
  induction l with
  | nil => intro _; simp
  | cons x l ih =>
    intro h
    have hx := h x (List.mem_cons_self x l)
    have hl := ih (fun y hy => h y (List.mem_cons_of_mem x hy))
    simp only [List.sum_cons, List.length_cons]
    push_cast
    constructor <;> nlinarith [hl.1, hl.2, hx.1, hx.2]

theorem energyOf_bounds (p : Params) {i : Nat} (h : i < numLevels p) :
    p.E_min ≤ energyOf p i ∧ energyOf p i ≤ p.E_max := by
  rw [energyOf, getD_E_levels p h]
  unfold numLevels at h
  omega

theorem candSum_bounds (p : Params) (sel : List Nat)
    (h : ∀ i ∈ sel, i < numLevels p) :
    (sel.length : Int) * p.E_min ≤ candSum p sel ∧
      candSum p sel ≤ (sel.length : Int) * p.E_max := by
  have hall : ∀ x ∈ sel.map (energyOf p), p.E_min ≤ x ∧ x ≤ p.E_max := by
    intro x hx
    rcases List.mem_map.mp hx with ⟨i, hi, rfl⟩
    exact energyOf_bounds p (h i hi)
  have := list_sum_bounds p.E_min p.E_max (sel.map (energyOf p)) hall
  rwa [List.length_map] at this

theorem no_accept_of_unreachable (p : Params) (sel : List Nat)
    (hv : ValidDraw p sel)
    (hun : ((p.N : Int) + 1) * p.E_max < p.E_total ∨
      p.E_total < ((p.N : Int) + 1) * p.E_min) :
    (E_select_fill p sel).length ≠ 1 := by
  intro hacc
  have hb := (accept_iff p sel).mp hacc
  rcases hv with ⟨hn, hin⟩
  have hc := candSum_bounds p sel hin
  rw [hn] at hc
  rw [E_missing] at hb
  rcases hun with h | h <;> nlinarith [hc.1, hc.2, hb.1, hb.2]

/-- Claim C7: when `E_total` is unreachable — strictly above
`(N+1) * E_max` or strictly below `(N+1) * E_min` — no candidate is ever
accepted, so the count of successful trials is 0 after all trials. -/
theorem claim_C7 (p : Params) (draws : List (List Nat))
    (hv : ∀ sel ∈ draws, ValidDraw p sel)
    (hun : ((p.N : Int) + 1) * p.E_max < p.E_total ∨
      p.E_total < ((p.N : Int) + 1) * p.E_min) :
    (runTrials p draws).count = 0 := by
  rw [runTrials]
  have main : ∀ (ds : List (List Nat)) (s : SimState),
      (∀ sel ∈ ds, ValidDraw p sel) →
      ds.foldl (trialStep p) s = s := by
    intro ds
    induction ds with
    | nil => intro s _; rfl
    | cons sel ds ih =>
      intro s hvd
      rw [List.foldl_cons, trialStep,
        if_neg (no_accept_of_unreachable p sel
          (hvd sel (List.mem_cons_self sel ds)) hun)]
      exact ih s (fun x hx => hvd x (List.mem_cons_of_mem sel hx))
  rw [main draws (initState p) hv]
  rfl

/-- Witness for C7: scenario B, `N = 1`, levels `0..1`, `E_total = 5`. -/
theorem claim_C7_witness :
    (∀ sel ∈ [[0]], ValidDraw ⟨1, 1, 5, 0, 1⟩ sel) ∧
    (((Params.N ⟨1, 1, 5, 0, 1⟩ : Int) + 1) * 1 < 5 ∨
      (5 : Int) < ((Params.N ⟨1, 1, 5, 0, 1⟩ : Int) + 1) * 0) ∧
    (runTrials ⟨1, 1, 5, 0, 1⟩ [[0]]).count = 0 :=
  ⟨by decide, by decide,
    claim_C7 ⟨1, 1, 5, 0, 1⟩ [[0]] (by decide) (by decide)⟩

theorem all_accept_count (p : Params) :
    ∀ (draws : List (List Nat)) (s : SimState),
      (∀ sel ∈ draws, (E_select_fill p sel).length = 1) →
      (draws.foldl (trialStep p) s).count = s.count + draws.length := by
  intro draws
  induction draws with
  | nil => intro s _; rfl
  | cons sel draws ih =>
    intro s hacc
    rw [List.foldl_cons, trialStep,
      if_pos (hacc sel (List.mem_cons_self sel draws))]
    rw [ih _ (fun x hx => hacc x (List.mem_cons_of_mem sel hx))]
    simp only [List.length_cons]
    omega

/-- Claim C8: scenario A — with `N = 1`, levels `0..2`, `E_total = 2`,
every valid draw `[s]` (a single index below 3) yields the valid closing
value `2 - s`, so every trial is accepted and the count of successful
trials equals the number of trials exactly. -/
theorem claim_C8 (T : Nat) (draws : List (List Nat))
    (hlen : draws.length = T)
    (hv : ∀ sel ∈ draws, ValidDraw ⟨T, 1, 2, 0, 2⟩ sel) :
    (runTrials ⟨T, 1, 2, 0, 2⟩ draws).count = T := by
  have hacc : ∀ sel ∈ draws, (E_select_fill ⟨T, 1, 2, 0, 2⟩ sel).length = 1 := by
    intro sel hs
    rcases hv sel hs with ⟨hn, hin⟩
    rcases sel with _ | ⟨i, rest⟩
    · simp at hn
    rcases rest with _ | ⟨j, rest⟩
    · have hi : i < 3 := by
        have h3 := hin i (List.mem_singleton.mpr rfl)
        simpa [numLevels] using h3
      rw [accept_iff]
      have hm : E_missing ⟨T, 1, 2, 0, 2⟩ [i] = 2 - (i : Int) := by
        rw [E_missing, candSum, List.map_cons, List.map_nil, List.sum_cons,
          List.sum_nil, energyOf, getD_E_levels]
        · push_cast
          ring
        · simpa [numLevels] using hi
      rw [hm]
      refine ⟨?_, ?_⟩
      · show (0 : Int) ≤ 2 - (i : Int)
        omega
      · show (2 : Int) - (i : Int) ≤ 2
        omega
    · simp at hn
  rw [runTrials, all_accept_count ⟨T, 1, 2, 0, 2⟩ draws (initState ⟨T, 1, 2, 0, 2⟩) hacc,
    hlen]
  simp [initState]

/-- Witness for C8 with three trials, draws `[0]`, `[1]`, `[2]`. -/
theorem claim_C8_witness :
    ([[0], [1], [2]] : List (List Nat)).length = 3 ∧
    (∀ sel ∈ [[0], [1], [2]], ValidDraw ⟨3, 1, 2, 0, 2⟩ sel) ∧
    (runTrials ⟨3, 1, 2, 0, 2⟩ [[0], [1], [2]]).count = 3 :=
  ⟨by decide, by decide, claim_C8 3 [[0], [1], [2]] (by decide) (by decide)⟩

/-- Claim C9: given an identical seed and identical parameters, two runs
produce identical histogram contents and accepted counts. The source uses
numpy's implicit global generator, whose seed-to-stream map is library
code outside this repository; per the spec's `seed` parameter it is
modeled by the deterministic seed-derived stream `drawsFor`. -/
theorem claim_C9 (seed1 seed2 : Nat) (p1 p2 : Params)
    (hs : seed1 = seed2) (hp : p1 = p2) :
    (fullRun seed1 p1).stat = (fullRun seed2 p2).stat ∧
    (fullRun seed1 p1).count = (fullRun seed2 p2).count := by
  subst hs
  subst hp
  exact ⟨rfl, rfl⟩

/-- Witness for C9 at seed 7 and scenario-A parameters. -/
theorem claim_C9_witness :
    (7 : Nat) = 7 ∧ (⟨2, 1, 2, 0, 2⟩ : Params) = ⟨2, 1, 2, 0, 2⟩ ∧
    ((fullRun 7 ⟨2, 1, 2, 0, 2⟩).stat = (fullRun 7 ⟨2, 1, 2, 0, 2⟩).stat ∧
      (fullRun 7 ⟨2, 1, 2, 0, 2⟩).count = (fullRun 7 ⟨2, 1, 2, 0, 2⟩).count) :=
  ⟨rfl, rfl, claim_C9 7 7 ⟨2, 1, 2, 0, 2⟩ ⟨2, 1, 2, 0, 2⟩ rfl rfl⟩

theorem npAdd_none_left (x : Option ℚ) : npAdd none x = none := by
  cases x <;> rfl

theorem npAdd_none_right (x : Option ℚ) : npAdd x none = none := by
  cases x <;> rfl

theorem foldl_npAdd_start_none (l : List (Option ℚ)) :
    l.foldl npAdd none = none := by
  induction l with
  | nil => rfl
  | cons a l ih => rw [List.foldl_cons, npAdd_none_left, ih]

theorem foldl_npAdd_mem_none :
    ∀ (l : List (Option ℚ)) (acc : Option ℚ),
      none ∈ l → l.foldl npAdd acc = none := by
  intro l
  induction l with
  | nil =>
    intro acc h
    simp at h
  | cons a l ih =>
    intro acc h
    rw [List.foldl_cons]
    rcases List.mem_cons.mp h with rfl | h2
    · rw [npAdd_none_right, foldl_npAdd_start_none]
    · exact ih _ h2

/-- Claim C4 as amended: when `count = 0` the source's finalization does
not fail at all — the zero-denominator divisions silently yield NaN
(non-finite, `none`) for every distribution entry, for the mean, the
second moment, the standard deviation, and the average total energy. -/
theorem claim_C4_amended (p : Params) (s : SimState)
    (hcount : s.count = 0) (hsum : s.stat.sum = 0)
    (hlen : s.stat.length = numLevels p) (hpos : 0 < numLevels p) :
    (∀ x ∈ pop s, x = none) ∧
    E_mol_avg p s = none ∧
    E2_mol_avg p s = none ∧
    E_mol_std p s = none ∧
    E_tot_avg p s = none := by
  have hz : ((s.stat.sum : Nat) : ℚ) = 0 := by
    rw [hsum]
    norm_num
  have hpop : ∀ x ∈ pop s, x = none := by
    intro x hx
    rcases List.mem_map.mp hx with ⟨c, hc, rfl⟩
    rw [npDiv, if_pos hz]
  obtain ⟨c, cs, hstat⟩ : ∃ c cs, s.stat = c :: cs := by
    cases hst : s.stat with
    | nil =>
      rw [hst] at hlen
      simp at hlen
      omega
    | cons c cs => exact ⟨c, cs, rfl⟩
  obtain ⟨e, es, hlev⟩ : ∃ e es, E_levels p = e :: es := by
    cases hlv : E_levels p with
    | nil =>
      have hl := length_E_levels p
      rw [hlv] at hl
      simp at hl
      omega
    | cons e es => exact ⟨e, es, rfl⟩
  have hpc : pop s =
      none :: cs.map (fun (x : Nat) => npDiv (x : ℚ) ((c :: cs).sum : ℚ)) := by
    rw [pop, hstat, List.map_cons]
    rw [hstat] at hz
    rw [npDiv, if_pos hz]
  have hmean : E_mol_avg p s = none := by
    rw [E_mol_avg, npSum]
    apply foldl_npAdd_mem_none
    rw [hpc, hlev, List.map_cons, List.zipWith_cons_cons]
    exact List.mem_cons_self _ _
  have h2nd : E2_mol_avg p s = none := by
    rw [E2_mol_avg, npSum]
    apply foldl_npAdd_mem_none
    rw [hpc, E2_levels, hlev, List.map_cons, List.map_cons,
      List.zipWith_cons_cons]
    exact List.mem_cons_self _ _
  have hstd : E_mol_std p s = none := by
    rw [E_mol_std, hmean, h2nd]
    rfl
  have htot : E_tot_avg p s = none := by
    rw [E_tot_avg, hcount]
    rw [npDiv, if_pos]
    norm_num
  exact ⟨hpop, hmean, h2nd, hstd, htot⟩

/-- Witness for the amended C4 at the all-zero two-level state. -/
theorem claim_C4_amended_witness :
    SimState.count ⟨0, [0, 0]⟩ = 0 ∧
    (SimState.stat ⟨0, [0, 0]⟩).sum = 0 ∧
    (SimState.stat ⟨0, [0, 0]⟩).length = numLevels ⟨2, 1, 5, 0, 1⟩ ∧
    0 < numLevels ⟨2, 1, 5, 0, 1⟩ ∧
    ((∀ x ∈ pop ⟨0, [0, 0]⟩, x = none) ∧
      E_mol_avg ⟨2, 1, 5, 0, 1⟩ ⟨0, [0, 0]⟩ = none ∧
      E2_mol_avg ⟨2, 1, 5, 0, 1⟩ ⟨0, [0, 0]⟩ = none ∧
      E_mol_std ⟨2, 1, 5, 0, 1⟩ ⟨0, [0, 0]⟩ = none ∧
      E_tot_avg ⟨2, 1, 5, 0, 1⟩ ⟨0, [0, 0]⟩ = none) :=
  ⟨rfl, rfl, rfl, by decide,
    claim_C4_amended ⟨2, 1, 5, 0, 1⟩ ⟨0, [0, 0]⟩ rfl rfl rfl (by decide)⟩

/-- Counterexample to C4 as stated: after two rejected trials of scenario
B (`N = 1`, levels `0..1`, `E_total = 5`) the count is 0 and finalization
does not raise any error: it silently evaluates to NaN (`none`) for both
distribution entries, for the mean and for the average total energy. -/
theorem claim_C4_counterexample :
    (runTrials ⟨2, 1, 5, 0, 1⟩ [[0], [1]]).count = 0 ∧
    pop (runTrials ⟨2, 1, 5, 0, 1⟩ [[0], [1]]) = [none, none] ∧
    E_mol_avg ⟨2, 1, 5, 0, 1⟩ (runTrials ⟨2, 1, 5, 0, 1⟩ [[0], [1]]) = none ∧
    E_tot_avg ⟨2, 1, 5, 0, 1⟩ (runTrials ⟨2, 1, 5, 0, 1⟩ [[0], [1]]) = none := by
  refine ⟨by decide, by decide, by decide, by decide⟩

theorem E_select_fill_of_no_levels (p : Params) (sel : List Nat)
    (h : numLevels p = 0) : E_select_fill p sel = [] := by
  rw [E_select_fill, h]
  rfl

theorem runTrials_of_no_levels (p : Params) (h : numLevels p = 0) :
    ∀ draws : List (List Nat), runTrials p draws = initState p := by
  have hid : ∀ (s : SimState) (sel : List Nat), trialStep p s sel = s := by
    intro s sel
    rw [trialStep, E_select_fill_of_no_levels p sel h]
    rfl
  have main : ∀ (ds : List (List Nat)) (s : SimState),
      ds.foldl (trialStep p) s = s := by
    intro ds
    induction ds with
    | nil => intro s; rfl
    | cons sel ds ih =>
      intro s
      rw [List.foldl_cons, hid s sel]
      exact ih s
  intro draws
  rw [runTrials, main]

theorem runTrials_stat_length (p : Params) (draws : List (List Nat)) :
    (runTrials p draws).stat.length = numLevels p := by
  rw [runTrials]
  have main : ∀ (ds : List (List Nat)) (s : SimState),
      s.stat.length = numLevels p →
      (ds.foldl (trialStep p) s).stat.length = numLevels p := by
    intro ds
    induction ds with
    | nil => intro s hs; exact hs
    | cons sel ds ih =>
      intro s hs
      rw [List.foldl_cons]
      apply ih
      rw [trialStep]
      split
      · dsimp only
        rw [length_recordConfig, hs]
      · exact hs
  exact main draws (initState p) (by simp [initState])

/-- Claim C5 as amended: the source performs no setup validation and
defines no ConfigurationError; structurally invalid parameters are not
rejected at setup and surface only later, if at all. With inverted bounds
(`E_min > E_max`) and `T ≥ 1`, the first trial's `np.random.randint`
raises a ValueError during the loop; with inverted bounds and `T = 0`,
the loop is skipped and the `E_tot_avg` line raises a `ZeroDivisionError`
at finalization (the builtin `sum` of the empty product array is the
integer 0 and `count = 0`); with `E_min ≤ E_max` the whole run — loop and
finalization — completes without error for every `T` and `P`, including
`T = 0` and `P = 0`, yielding NaN statistics when no trial is accepted. -/
theorem claim_C5_amended (p : Params) (draws : List (List Nat)) :
    (0 < p.Trials → numLevels p = 0 →
      runScript p draws = .error .emptyLevelRange) ∧
    (p.Trials = 0 → numLevels p = 0 →
      runScript p draws = .error .zeroDivisionError) ∧
    (0 < numLevels p →
      runScript p draws = .ok (runTrials p draws, pop (runTrials p draws),
        E_tot_avg p (runTrials p draws))) := by
  refine ⟨?_, ?_, ?_⟩
  · intro h1 h2
    rw [runScript, runTrialsE, if_pos ⟨h1, h2⟩]
  · intro h1 h2
    rw [runScript, runTrialsE, if_neg (by omega),
      runTrials_of_no_levels p h2 draws]
    have hc : List.zipWith (fun (c : Nat) (e : Int) => (c : ℚ) * (e : ℚ))
        (initState p).stat (E_levels p) = [] ∧ (initState p).count = 0 := by
      constructor
      · rw [initState]
        dsimp only
        rw [h2]
        rfl
      · rfl
    dsimp only
    rw [E_tot_avgE, if_pos hc]
  · intro h
    rw [runScript, runTrialsE, if_neg (by omega)]
    have hne : ¬(List.zipWith (fun (c : Nat) (e : Int) => (c : ℚ) * (e : ℚ))
        (runTrials p draws).stat (E_levels p) = [] ∧
        (runTrials p draws).count = 0) := by
      intro hcontra
      have hlen := congrArg List.length hcontra.1
      rw [List.length_zipWith, runTrials_stat_length, length_E_levels,
        min_self, List.length_nil] at hlen
      omega
    dsimp only
    rw [E_tot_avgE, if_neg hne]

/-- Witness for the amended C5 at inverted bounds `E_min = 5 > 3 = E_max`
with zero trials: the script fails at finalization, not at setup. -/
theorem claim_C5_amended_witness :
    Params.Trials ⟨0, 1, 0, 5, 3⟩ = 0 ∧
    numLevels ⟨0, 1, 0, 5, 3⟩ = 0 ∧
    runScript ⟨0, 1, 0, 5, 3⟩ [] = .error .zeroDivisionError :=
  ⟨rfl, by decide,
    (claim_C5_amended ⟨0, 1, 0, 5, 3⟩ []).2.1 rfl (by decide)⟩

/-- Counterexample to C5 as stated: with `Trials = 0`, violating the
claimed `T ≥ 1` validation, the source raises nothing at setup or
anywhere else — the whole run, loop and finalization included, completes
normally (with NaN statistics). -/
theorem claim_C5_counterexample :
    Params.Trials ⟨0, 1, 2, 0, 2⟩ < 1 ∧
    runScript ⟨0, 1, 2, 0, 2⟩ [] =
      .ok (⟨0, [0, 0, 0]⟩, [none, none, none], none) := by
  constructor
  · decide
  · rfl

theorem map_eq_range_map {α β : Type} (d : α) (f : α → β) :
    ∀ l : List α,
      l.map f = (List.range l.length).map (fun i => f (l.getD i d)) := by
  intro l
  induction l with
  | nil => rfl
  | cons a l ih =>
    rw [List.map_cons, List.length_cons, List.range_succ_eq_map,
      List.map_cons]
    congr 1
    rw [List.map_map, ih]
    rfl

theorem npSum_map_some (l : List ℚ) : npSum (l.map some) = some l.sum := by
  have main : ∀ (l : List ℚ) (a : ℚ),
      (l.map some).foldl npAdd (some a) = some (a + l.sum) := by
    intro l
    induction l with
    | nil =>
      intro a
      simp
    | cons x l ih =>
      intro a
      rw [List.map_cons, List.foldl_cons]
      show (l.map some).foldl npAdd (some (a + x)) = some (a + (x :: l).sum)
      rw [ih (a + x), List.sum_cons]
      ring_nf
  rw [npSum, main, zero_add]

theorem zipWith_map_same {α β γ δ : Type} (h : β → γ → δ) (f : α → β)
    (g : α → γ) :
    ∀ l : List α,
      List.zipWith h (l.map f) (l.map g) = l.map (fun x => h (f x) (g x)) := by
  intro l
  induction l with
  | nil => rfl
  | cons a l ih =>
    rw [List.map_cons, List.map_cons, List.zipWith_cons_cons, ih,
      List.map_cons]

/-- Claim C6: finalization computes exactly the spec's Moment Estimator
formulas: each distribution entry is `histogram[i] / sum(histogram)`, the
mean is `Σ distribution[i] * level[i]`, and the standard deviation is the
square root of `Σ distribution[i] * level[i]^2 - mean^2`, each derived
once from the final histogram. -/
theorem claim_C6 (p : Params) (s : SimState)
    (hlen : s.stat.length = numLevels p) (hsum : s.stat.sum ≠ 0) :
    pop s = (List.range (numLevels p)).map
      (fun i => some (specDistribution s.stat i)) ∧
    E_mol_avg p s = some (specMean p s.stat) ∧
    E_mol_std p s =
      npSqrt (some (specSecondMoment p s.stat - specMean p s.stat ^ 2)) := by
  have hq : ((s.stat.sum : Nat) : ℚ) ≠ 0 := Nat.cast_ne_zero.mpr hsum
  have hpop : pop s = (List.range (numLevels p)).map
      (fun i => some (specDistribution s.stat i)) := by
    rw [pop, map_eq_range_map 0 _ s.stat, hlen]
    apply List.map_congr_left
    intro i _
    rw [npDiv, if_neg hq, specDistribution]
  have hlev2 : (E_levels p).map (fun (e : Int) => some (e : ℚ)) =
      (List.range (numLevels p)).map
        (fun (i : Nat) => some (((p.E_min + (i : Int)) : ℚ))) := by
    rw [E_levels, List.map_map]
    apply List.map_congr_left
    intro i _
    simp only [Function.comp_apply]
    congr 1
    push_cast
    ring
  have hmean : E_mol_avg p s = some (specMean p s.stat) := by
    rw [E_mol_avg, hpop, hlev2, zipWith_map_same]
    have heq : (List.range (numLevels p)).map
        (fun (i : Nat) => npMul (some (specDistribution s.stat i))
          (some (((p.E_min + (i : Int)) : ℚ)))) =
        ((List.range (numLevels p)).map
          (fun i => specDistribution s.stat i *
            ((p.E_min + (i : Int)) : ℚ))).map some := by
      rw [List.map_map]
      rfl
    rw [heq, npSum_map_some, specMean]
  have hlev3 : (E2_levels p).map (fun (e : Int) => some (e : ℚ)) =
      (List.range (numLevels p)).map
        (fun (i : Nat) => some ((((p.E_min + (i : Int)) ^ 2 : Int) : ℚ))) := by
    rw [E2_levels, E_levels, List.map_map, List.map_map]
    rfl
  have h2nd : E2_mol_avg p s = some (specSecondMoment p s.stat) := by
    rw [E2_mol_avg, hpop, hlev3, zipWith_map_same]
    have heq : (List.range (numLevels p)).map
        (fun (i : Nat) => npMul (some (specDistribution s.stat i))
          (some ((((p.E_min + (i : Int)) ^ 2 : Int) : ℚ)))) =
        ((List.range (numLevels p)).map
          (fun i => specDistribution s.stat i *
            ((p.E_min + (i : Int)) : ℚ) ^ 2)).map some := by
      rw [List.map_map]
      apply List.map_congr_left
      intro i _
      show some (specDistribution s.stat i *
        (((p.E_min + (i : Int)) ^ 2 : Int) : ℚ)) = _
      congr 1
      push_cast
      ring
    rw [heq, npSum_map_some, specSecondMoment]
  refine ⟨hpop, hmean, ?_⟩
  rw [E_mol_std, hmean, h2nd]
  show npSqrt (some (specSecondMoment p s.stat -
    specMean p s.stat * specMean p s.stat)) = _
  have hx : specSecondMoment p s.stat -
      specMean p s.stat * specMean p s.stat =
      specSecondMoment p s.stat - specMean p s.stat ^ 2 := by
    ring
  rw [hx]

/-- Witness for C6 at the state after one accepted trial of `N = 1`,
levels `0..2`, `E_total = 2`, draw `[0]` (histogram `[1, 0, 1]`). -/
theorem claim_C6_witness :
    (runTrials ⟨1, 1, 2, 0, 2⟩ [[0]]).stat.length = numLevels ⟨1, 1, 2, 0, 2⟩ ∧
    (runTrials ⟨1, 1, 2, 0, 2⟩ [[0]]).stat.sum ≠ 0 ∧
    (pop (runTrials ⟨1, 1, 2, 0, 2⟩ [[0]]) =
        (List.range (numLevels ⟨1, 1, 2, 0, 2⟩)).map
          (fun i => some
            (specDistribution (runTrials ⟨1, 1, 2, 0, 2⟩ [[0]]).stat i)) ∧
      E_mol_avg ⟨1, 1, 2, 0, 2⟩ (runTrials ⟨1, 1, 2, 0, 2⟩ [[0]]) =
        some (specMean ⟨1, 1, 2, 0, 2⟩ (runTrials ⟨1, 1, 2, 0, 2⟩ [[0]]).stat) ∧
      E_mol_std ⟨1, 1, 2, 0, 2⟩ (runTrials ⟨1, 1, 2, 0, 2⟩ [[0]]) =
        npSqrt (some
          (specSecondMoment ⟨1, 1, 2, 0, 2⟩ (runTrials ⟨1, 1, 2, 0, 2⟩ [[0]]).stat -
            specMean ⟨1, 1, 2, 0, 2⟩ (runTrials ⟨1, 1, 2, 0, 2⟩ [[0]]).stat ^ 2))) :=
  ⟨by decide, by decide,
    claim_C6 ⟨1, 1, 2, 0, 2⟩ (runTrials ⟨1, 1, 2, 0, 2⟩ [[0]])
      (by decide) (by decide)⟩
